import Mathlib

/-!
A shallow embedding of the query engine of the `soup` package (src/soup.go):
the node-view data model (`Root`), the matcher (`elementMatching`,
`compareAttributeValues`), the search algorithms (`findOnce` / `findAll` and
their public wrappers), structural navigation, and text extraction, together
with theorems settling the specification claims about them.

The HTML tree handed over by the external parser (`golang.org/x/net/html`)
is modelled as a first-child/next-sibling tree rendered as a node with a
children list; a `Root` view carries its sibling context explicitly (the
`prevRev` / `next` fields), which models the `PrevSibling` / `NextSibling`
pointers of the underlying `html.Node` of the view.  The process-wide
`debug` flag is passed explicitly.  Fallible operations return a `GoResult`:
`.err` models a returned `Root`/value carrying an error (debug off), and
`.abort` models a runtime panic (either a `panic(...)` call under debug
mode, or an unconditional runtime fault such as a nil-pointer dereference
or an out-of-range index).
-/

namespace Soup

/-- Node kinds of `golang.org/x/net/html`. -/
inductive NodeType where
  | ErrorNode
  | TextNode
  | DocumentNode
  | ElementNode
  | CommentNode
  | DoctypeNode
  deriving DecidableEq, Repr

/-- One attribute of a node (`html.Attribute`: Key, Val; Namespace unused by soup). -/
structure GoAttr where
  key : String
  val : String
  deriving DecidableEq, Repr

/-- A parsed-tree node (`html.Node`): kind, `Data` string, ordered attribute
list, and the list of children (first-child/next-sibling chain). -/
inductive HNode where
  | mk (type : NodeType) (data : String) (attr : List GoAttr) (children : List HNode) : HNode

mutual

def HNode.decEq : (a b : HNode) → Decidable (a = b)
  | .mk t1 d1 a1 c1, .mk t2 d2 a2 c2 =>
    if h1 : t1 = t2 then
      if h2 : d1 = d2 then
        if h3 : a1 = a2 then
          match HNode.decEqList c1 c2 with
          | isTrue h4 => isTrue (by rw [h1, h2, h3, h4])
          | isFalse h4 => isFalse (by intro h; injection h; contradiction)
        else isFalse (by intro h; injection h; contradiction)
      else isFalse (by intro h; injection h; contradiction)
    else isFalse (by intro h; injection h; contradiction)

def HNode.decEqList : (a b : List HNode) → Decidable (a = b)
  | [], [] => isTrue rfl
  | [], _ :: _ => isFalse (by intro h; injection h)
  | _ :: _, [] => isFalse (by intro h; injection h)
  | x :: xs, y :: ys =>
    match HNode.decEq x y, HNode.decEqList xs ys with
    | isTrue h1, isTrue h2 => isTrue (by rw [h1, h2])
    | isFalse h1, _ => isFalse (by intro h; injection h; contradiction)
    | _, isFalse h2 => isFalse (by intro h; injection h; contradiction)

end

instance : DecidableEq HNode := HNode.decEq

def HNode.type : HNode → NodeType
  | .mk t _ _ _ => t

def HNode.data : HNode → String
  | .mk _ d _ _ => d

def HNode.attr : HNode → List GoAttr
  | .mk _ _ a _ => a

def HNode.children : HNode → List HNode
  | .mk _ _ _ cs => cs

/-- The `soup.Root` view: parent view pointer, the underlying node together
with its sibling context (`prevRev` lists the preceding siblings nearest
first, `next` the following siblings in order — these model the
`PrevSibling` / `NextSibling` pointers of the node), and the cached
`NodeValue`.  A successful view always has `Error == nil`, and failing
results are modelled by `GoResult.err`, so no error field is carried here. -/
inductive Root where
  | mk (parent : Option Root) (prevRev : List HNode) (pointer : HNode)
       (next : List HNode) (nodeValue : String) : Root

def Root.parent : Root → Option Root
  | .mk p _ _ _ _ => p

def Root.prevRev : Root → List HNode
  | .mk _ pr _ _ _ => pr

def Root.pointer : Root → HNode
  | .mk _ _ ptr _ _ => ptr

def Root.next : Root → List HNode
  | .mk _ _ _ nx _ => nx

def Root.nodeValue : Root → String
  | .mk _ _ _ _ v => v

/-- Result of a fallible soup operation: `ok` a value, `err` a failure
returned as data (debug off), `abort` a runtime panic. -/
inductive GoResult (α : Type) where
  | ok (val : α) : GoResult α
  | err (msg : String) : GoResult α
  | abort : GoResult α
  deriving Repr

def GoResult.toOption : GoResult α → Option α
  | .ok a => some a
  | _ => none

/-! ### Whitespace and string utilities -/

/-- Whitespace as used by `strings.Fields` (`unicode.IsSpace`), restricted to
the Latin-1 range; the further Unicode space-category code points play no
role in any claim. -/
def isUnicodeSpace (c : Char) : Bool :=
  c = ' ' ∨ c = '\t' ∨ c = '\n' ∨ c = '\x0b' ∨ c = '\x0c' ∨ c = '\r' ∨
    c = '\x85' ∨ c = '\xa0'

/-- Whitespace as matched by the RE2 class `\s` (used in `Text`):
exactly `[\t\n\f\r ]`. -/
def isRegexpSpace (c : Char) : Bool :=
  c = ' ' ∨ c = '\t' ∨ c = '\n' ∨ c = '\x0c' ∨ c = '\r'

/-- Character-list worker for `goFields`: `acc` holds the characters of the
word currently being scanned, in reverse. -/
def goFieldsAux : List Char → List Char → List String
  | [], acc => if acc = [] then [] else [String.mk acc.reverse]
  | c :: rest, acc =>
    if isUnicodeSpace c then
      if acc = [] then goFieldsAux rest []
      else String.mk acc.reverse :: goFieldsAux rest []
    else goFieldsAux rest (c :: acc)

/-- `strings.Fields`: split a string around runs of whitespace; no empty
words are produced. -/
def goFields (s : String) : List String :=
  goFieldsAux s.data []

/-- The test `regexp ^\s+$` performed by `Text` on a text node: the content
consists of one or more whitespace characters. -/
def wsOnly (s : String) : Bool :=
  ¬ s.data = [] ∧ s.data.all isRegexpSpace

/-- `strings.Join(parts, " ")` as used in the not-found error messages. -/
def goJoin (parts : List String) : String :=
  String.intercalate " " parts

/-! ### Attribute utilities -/

/-- Worker for `getKeyValue`: Go inserts `attributes[i]` into the map only
when its key is not yet present, so the first occurrence of a key wins. -/
def getKeyValueAux (keyvalues : List (String × String)) : List GoAttr → List (String × String)
  | [] => keyvalues
  | a :: rest =>
    if keyvalues.any (fun kv => kv.1 = a.key) then getKeyValueAux keyvalues rest
    else getKeyValueAux (keyvalues ++ [(a.key, a.val)]) rest

/-- `getKeyValue`: the attribute list as a name→value mapping, first
occurrence of a duplicate key winning; modelled as an association list. -/
def getKeyValue (attributes : List GoAttr) : List (String × String) :=
  getKeyValueAux [] attributes

/-- The map produced by `Attributes()` with the debug-insensitive outcome:
`nil` (empty) for a non-element node, else `getKeyValue` of the node's
attributes (`len(Attr) == 0` already yields the empty map). -/
def attributesMap (r : Root) : List (String × String) :=
  if r.pointer.type = NodeType.ElementNode then getKeyValue r.pointer.attr else []

/-- `Attributes()` as a fallible operation: on a non-element node it panics
under debug mode and returns the bare `nil` map otherwise. -/
def Attributes (debug : Bool) (r : Root) : GoResult (List (String × String)) :=
  if r.pointer.type = NodeType.ElementNode then .ok (getKeyValue r.pointer.attr)
  else if debug then .abort else .ok []

/-- `HasAttribute`: scans the keys of the attribute map. -/
def HasAttribute (r : Root) (attributeToFind : String) : Bool :=
  (attributesMap r).any (fun kv => kv.1 = attributeToFind)

/-- `GetAttribute`: the value of the attribute when present, `""` otherwise. -/
def GetAttribute (r : Root) (attributeToFind : String) : String :=
  if HasAttribute r attributeToFind then
    match (attributesMap r).find? (fun kv => kv.1 = attributeToFind) with
    | some kv => kv.2
    | none => ""
  else ""

/-! ### The matcher -/

/-- `compareAttributeValues`: strict mode demands exact equality; loose mode
demands that every whitespace-separated part of `valueToCheck` occur among
the whitespace-separated parts of `valueAttribute` (the running `matching`
conjunction of the Go loop is the fold). -/
def compareAttributeValues (strict : Bool) (valueAttribute valueToCheck : String) : Bool :=
  if strict = true ∧ valueAttribute = valueToCheck then true
  else if strict = false then
    (goFields valueToCheck).foldl
      (fun matching part => matching && (goFields valueAttribute).any (fun ap => ap = part))
      true
  else false

/-- `elementMatching`: the node must be an element whose tag matches
(`""` is a wildcard); with no attribute filter that suffices, otherwise the
named attribute must be present and its value must compare. -/
def elementMatching (r : Root) (strict : Bool)
    (name nameAttribute valueAttribute : String) : Bool :=
  if r.pointer.type = NodeType.ElementNode ∧ ("" = name ∨ r.nodeValue = name) then
    if nameAttribute = "" ∧ valueAttribute = "" then true
    else if HasAttribute r nameAttribute then
      compareAttributeValues strict (GetAttribute r nameAttribute) valueAttribute
    else false
  else false

/-- The `switch len(args)` performed by `findOnce` and `findAll`: one
argument filters by tag, three filter by tag + attribute name + attribute
value, and every other argument count leaves `matching == false`. -/
def matchArgs (r : Root) (args : List String) (strict : Bool) : Bool :=
  match args with
  | [tag] => elementMatching r strict tag "" ""
  | [tag, an, av] => elementMatching r strict tag an av
  | _ => false

/-! ### Structural navigation -/

/-- The view `Root{&r, child, child.Data, nil}` built by `Children` (and by
the searches through it) for the child `c` of `r` whose preceding siblings
are `prevRev` (nearest first) and whose following siblings are `rest`. -/
def childView (r : Root) (prevRev : List HNode) (c : HNode) (rest : List HNode) : Root :=
  Root.mk (some r) prevRev c rest c.data

/-- The effective flag of the variadic `parameters ...bool`:
`len(parameters) == 1 && parameters[0] == true`. -/
def childrenFlag : List Bool → Bool
  | [b] => b
  | _ => false

/-- The child-collecting loop of `Children`: walk the child chain, keeping a
child when the flag is set or the child is an element node. -/
def childrenAux (r : Root) (flag : Bool) (prevRev : List HNode) : List HNode → List Root
  | [] => []
  | c :: rest =>
    if flag = true ∨ c.type = NodeType.ElementNode then
      childView r prevRev c rest :: childrenAux r flag (c :: prevRev) rest
    else childrenAux r flag (c :: prevRev) rest

/-- `Children`: all direct children, filtered to element nodes unless the
single optional parameter is `true`. -/
def Children (r : Root) (parameters : List Bool) : List Root :=
  childrenAux r (childrenFlag parameters) [] r.pointer.children

/-- The sibling-collecting loop of `Siblings`: walk the following siblings
(`Root{r.Parent, sibling, sibling.Data, nil}` for each kept one). -/
def siblingsAux (par : Option Root) (flag : Bool) (prevRev : List HNode) : List HNode → List Root
  | [] => []
  | s :: rest =>
    if flag = true ∨ s.type = NodeType.ElementNode then
      Root.mk par prevRev s rest s.data :: siblingsAux par flag (s :: prevRev) rest
    else siblingsAux par flag (s :: prevRev) rest

/-- `Siblings`: all *following* siblings, same filtering flag as `Children`. -/
def Siblings (r : Root) (parameters : List Bool) : List Root :=
  siblingsAux r.parent (childrenFlag parameters) (r.pointer :: r.prevRev) r.next

/-- `FindNextSibling`: the immediate next sibling, of any node kind. -/
def FindNextSibling (debug : Bool) (r : Root) : GoResult Root :=
  match r.next with
  | [] => if debug then .abort else .err "no next sibling found"
  | s :: rest => .ok (Root.mk r.parent (r.pointer :: r.prevRev) s rest s.data)

/-- `FindPrevSibling`: the immediate previous sibling, of any node kind. -/
def FindPrevSibling (debug : Bool) (r : Root) : GoResult Root :=
  match r.prevRev with
  | [] => if debug then .abort else .err "no previous sibling found"
  | p :: prevRest => .ok (Root.mk r.parent prevRest p (r.pointer :: r.next) p.data)

/-- The recursion of `FindNextElementSibling`, walking the following-sibling
chain: `cur` is the node of the view currently looked at, `prevRev` its
preceding siblings, and the scanned list its following siblings. -/
def nextElementSibling (debug : Bool) (par : Option Root) (prevRev : List HNode)
    (cur : HNode) : List HNode → GoResult Root
  | [] => if debug then .abort else .err "no next element sibling found"
  | s :: rest =>
    if s.type = NodeType.ElementNode then .ok (Root.mk par (cur :: prevRev) s rest s.data)
    else nextElementSibling debug par (cur :: prevRev) s rest

/-- `FindNextElementSibling`: nearest following element sibling. -/
def FindNextElementSibling (debug : Bool) (r : Root) : GoResult Root :=
  nextElementSibling debug r.parent r.prevRev r.pointer r.next

/-- The recursion of `FindPrevElementSibling`, walking the preceding-sibling
chain (`prevRev`-style lists are ordered nearest first). -/
def prevElementSibling (debug : Bool) (par : Option Root) (cur : HNode)
    (next : List HNode) (prevList : List HNode) : GoResult Root :=
  match prevList with
  | [] => if debug then .abort else .err "no previous element sibling found"
  | p :: prevRest =>
    if p.type = NodeType.ElementNode then .ok (Root.mk par prevRest p (cur :: next) p.data)
    else prevElementSibling debug par p (cur :: next) prevRest
termination_by prevList.length
decreasing_by simp

/-- `FindPrevElementSibling`: nearest preceding element sibling. -/
def FindPrevElementSibling (debug : Bool) (r : Root) : GoResult Root :=
  prevElementSibling debug r.parent r.pointer r.next r.prevRev

/-- `FindParent` evaluates `Root{r.Parent.Parent, r.Parent.Pointer,
r.Parent.NodeValue, nil}` with no guard: when `r.Parent` is `nil` the field
accesses dereference a nil pointer, a runtime panic (`.abort`) regardless of
the debug flag. -/
def FindParent (r : Root) : GoResult Root :=
  match r.parent with
  | none => .abort
  | some p => .ok (Root.mk p.parent p.prevRev p.pointer p.next p.nodeValue)

/-! ### The search algorithms -/

mutual

/-- The recursive body of `findOnce` for the views built during descent
(they always carry `checkSelf == true`): test the view itself first, then
scan the element children left-to-right, short-circuiting on the first
success.  `ptr` is the underlying node of `v`, carried separately as the
structural recursion handle. -/
def findOnceAt (args : List String) (strict : Bool) (v : Root) (ptr : HNode) : Option Root :=
  if matchArgs v args strict then some v
  else findOnceKids args strict v [] ptr.children
termination_by sizeOf ptr
decreasing_by cases ptr with
  | mk t d a cs => simp [HNode.children]; try omega

/-- The `for position := range children` loop of `findOnce` with its `break`
on the first success; only element children are visited (`r.Children()`
with no parameters). -/
def findOnceKids (args : List String) (strict : Bool) (v : Root)
    (prevRev : List HNode) (rest : List HNode) : Option Root :=
  match rest with
  | [] => none
  | c :: rest2 =>
    if c.type = NodeType.ElementNode then
      match findOnceAt args strict (childView v prevRev c rest2) c with
      | some w => some w
      | none => findOnceKids args strict v (c :: prevRev) rest2
    else findOnceKids args strict v (c :: prevRev) rest2
termination_by sizeOf rest
decreasing_by all_goals (simp; try omega)

end

/-- `findOnce`: the Go entry point; public callers pass `checkSelf == false`,
so the view itself is only tested on the recursive calls. -/
def findOnce (r : Root) (args : List String) (checkSelf strict : Bool) : Option Root :=
  if checkSelf = true ∧ matchArgs r args strict then some r
  else findOnceKids args strict r [] r.pointer.children

/-- The not-found result of `Find` / `FindStrict`: the message evaluates
`args[0]`, an out-of-range index (runtime panic, `.abort`) when `args` is
empty; otherwise a debug-mode panic or an error-carrying `Root`. -/
def findFailure (debug : Bool) (args : List String) : GoResult Root :=
  match args with
  | [] => .abort
  | a :: rest =>
    if debug then .abort
    else .err ("element `" ++ a ++ "` with attributes `" ++ goJoin rest ++ "` not found")

/-- `Find`: first loose match among the proper descendants. -/
def Find (debug : Bool) (r : Root) (args : List String) : GoResult Root :=
  match findOnce r args false false with
  | some result => .ok result
  | none => findFailure debug args

/-- `FindStrict`: first strict match among the proper descendants. -/
def FindStrict (debug : Bool) (r : Root) (args : List String) : GoResult Root :=
  match findOnce r args false true with
  | some result => .ok result
  | none => findFailure debug args

mutual

/-- The recursive body of `findAll` for the views built during descent
(`checkSelf == true`): append the view itself when it matches, then all
matches from the element children, left to right. -/
def findAllAt (args : List String) (strict : Bool) (v : Root) (ptr : HNode) : List Root :=
  (if matchArgs v args strict then [v] else []) ++ findAllKids args strict v [] ptr.children
termination_by sizeOf ptr
decreasing_by cases ptr with
  | mk t d a cs => simp [HNode.children]; try omega

/-- The child loop of `findAll`, concatenating child results in order. -/
def findAllKids (args : List String) (strict : Bool) (v : Root)
    (prevRev : List HNode) (rest : List HNode) : List Root :=
  match rest with
  | [] => []
  | c :: rest2 =>
    (if c.type = NodeType.ElementNode then
      findAllAt args strict (childView v prevRev c rest2) c
    else []) ++ findAllKids args strict v (c :: prevRev) rest2
termination_by sizeOf rest
decreasing_by all_goals (simp; try omega)

end

/-- `findAll`: the Go entry point; public callers pass `checkSelf == false`. -/
def findAll (r : Root) (args : List String) (checkSelf strict : Bool) : List Root :=
  (if checkSelf = true ∧ matchArgs r args strict then [r] else []) ++
    findAllKids args strict r [] r.pointer.children

/-- `FindAll`: every loose match among the proper descendants, in order. -/
def FindAll (r : Root) (args : List String) : List Root :=
  findAll r args false false

/-- `FindAllStrict`: every strict match among the proper descendants. -/
def FindAllStrict (r : Root) (args : List String) : List Root :=
  findAll r args false true

/-! ### Text extraction -/

/-- The `checkNode` scan of `Text` over the child chain: skip non-text
children and whitespace-only text children; return the data of the first
usable text child; `none` is the `No text node found` failure reached when
the chain is exhausted. -/
def textScan : List HNode → Option String
  | [] => none
  | k :: rest =>
    if k.type = NodeType.TextNode then
      if wsOnly k.data then textScan rest else some k.data
    else textScan rest

/-- The debug-insensitive outcome of `Text`: a childless node returns `""`
directly (the final `return ""`), otherwise the scan runs and `none` marks
the failure branch. -/
def textAux : List HNode → Option String
  | [] => some ""
  | l => textScan l

/-- `Text`: shallow text extraction.  The failure branch panics under debug
mode and returns the bare string `""` (no error value) otherwise. -/
def Text (debug : Bool) (r : Root) : GoResult String :=
  match textAux r.pointer.children with
  | some s => .ok s
  | none => if debug then .abort else .ok ""

mutual

/-- The node part of `FullText`'s closure `f`: write the data of a text
node, descend into the children of an element node. -/
def fullTextNode : HNode → String
  | .mk t d _ cs =>
    (if t = NodeType.TextNode then d else "") ++
      (if t = NodeType.ElementNode then fullTextKids cs else "")

/-- The sibling chain part of `f`: after handling a node, continue with its
next sibling. -/
def fullTextKids : List HNode → String
  | [] => ""
  | n :: rest => fullTextNode n ++ fullTextKids rest

end

/-- `FullText`: concatenation of every text node in the subtree, in document
order, starting from the first child; never fails. -/
def FullText (r : Root) : String :=
  fullTextKids r.pointer.children

/-! ### Specification-side notions

Document pre-order, the matcher evaluated on a bare node, tree
well-formedness (the parser's guarantee that only element and document
nodes carry children — text, comment and doctype nodes are leaves), and the
parent-link coherence invariant of views. -/

mutual

/-- Document pre-order of a subtree: the node first, then its children's
subtrees left to right. -/
def preorder : HNode → List HNode
  | .mk t d a cs => HNode.mk t d a cs :: preorderTrav cs

/-- Pre-order of a forest, left to right. -/
def preorderTrav : List HNode → List HNode
  | [] => []
  | c :: cs => preorder c ++ preorderTrav cs

end

/-- The proper descendants of a node in document pre-order. -/
def properDescendants (n : HNode) : List HNode :=
  preorderTrav n.children

/-- The matcher evaluated on a bare node: `elementMatching` applied to a
view of `n` whose cached `NodeValue` is `n.Data`, as holds for every view
the traversal operations build. -/
def nodeMatches (strict : Bool) (args : List String) (n : HNode) : Bool :=
  matchArgs (Root.mk none [] n [] n.data) args strict

mutual

/-- Well-formedness of a parsed tree: a node that is not an element node
has no children (true of every tree `golang.org/x/net/html` produces below
the document node). -/
def wfNode : HNode → Bool
  | .mk t _ _ cs => (decide (t = NodeType.ElementNode) || decide (cs = [])) && wfTrav cs

/-- Well-formedness of a forest. -/
def wfTrav : List HNode → Bool
  | [] => true
  | c :: cs => wfNode c && wfTrav cs

end

/-- Parent-link coherence of a view: whenever the parent reference is
present, the parent view's underlying node is the actual tree parent — its
children list is exactly the view's node in its recorded sibling context —
and the parent view is itself coherent. -/
def viewOK : Root → Bool
  | .mk none _ _ _ _ => true
  | .mk (some p) prevRev ptr nx _ =>
    decide (p.pointer.children = prevRev.reverse ++ ptr :: nx) && viewOK p

/-! ### Concrete documents used as test inputs -/

/-- A text node. -/
def nText (s : String) : HNode :=
  HNode.mk NodeType.TextNode s [] []

/-- An element node. -/
def nElem (tag : String) (attrs : List GoAttr) (cs : List HNode) : HNode :=
  HNode.mk NodeType.ElementNode tag attrs cs

/-- The root view the parser would hand out for a node (no parent link, no
siblings, `NodeValue` = the node's `Data`). -/
def rootView (n : HNode) : Root :=
  Root.mk none [] n [] n.data

/-- The element parsed from `<p>  <b>x</b></p>`: a whitespace-only text
child followed by a `<b>` element containing the text `x`. -/
def pExample : HNode :=
  nElem "p" [] [nText "  ", nElem "b" [] [nText "x"]]

/-- `<div><span>hi</span></div>`: a document with a `span` descendant. -/
def divExample : HNode :=
  nElem "div" [] [nElem "span" [] [nText "hi"]]

/-- `<div><span></span></div>` with no text anywhere: shallow text
extraction on it reaches the not-found branch. -/
def divNoTextExample : HNode :=
  nElem "div" [] [nElem "span" [] []]

/-! ## Basic lemmas -/

theorem Root.eta (r : Root) :
    Root.mk r.parent r.prevRev r.pointer r.next r.nodeValue = r := by
  cases r
  rfl

theorem preorder_eq (n : HNode) : preorder n = n :: preorderTrav n.children := by
  cases n
  rfl

theorem wfNode_iff (n : HNode) :
    wfNode n = true ↔
      (n.type = NodeType.ElementNode ∨ n.children = []) ∧ wfTrav n.children = true := by
  cases n with
  | mk t d a cs => simp [wfNode, HNode.type, HNode.children]

theorem wfTrav_cons (c : HNode) (cs : List HNode) :
    wfTrav (c :: cs) = (wfNode c && wfTrav cs) := by
  simp [wfTrav]

/-- The matcher only looks at the underlying node and the cached
`NodeValue`; on a view whose `NodeValue` is the node's `Data` it is
`nodeMatches`. -/
theorem matchArgs_canonical (p : Option Root) (pr nx : List HNode) (n : HNode)
    (args : List String) (strict : Bool) :
    matchArgs (Root.mk p pr n nx n.data) args strict = nodeMatches strict args n := by
  cases args with
  | nil => rfl
  | cons a rest =>
    cases rest with
    | nil => rfl
    | cons b rest2 =>
      cases rest2 with
      | nil => rfl
      | cons c rest3 =>
        cases rest3 with
        | nil => rfl
        | cons d rest4 => rfl

/-- A non-element node never satisfies the matcher. -/
theorem nodeMatches_nonElement (n : HNode) (strict : Bool) (args : List String)
    (h : ¬ n.type = NodeType.ElementNode) : nodeMatches strict args n = false := by
  cases args with
  | nil => rfl
  | cons a rest =>
    cases rest with
    | nil =>
      simp [nodeMatches, matchArgs, elementMatching, Root.pointer, h]
    | cons b rest2 =>
      cases rest2 with
      | nil => rfl
      | cons c rest3 =>
        cases rest3 with
        | nil =>
          simp [nodeMatches, matchArgs, elementMatching, Root.pointer, h]
        | cons d rest4 => rfl

theorem preorderTrav_cons (c : HNode) (cs : List HNode) :
    preorderTrav (c :: cs) = preorder c ++ preorderTrav cs := by
  simp [preorderTrav]

/-! ## The single-match search finds the first pre-order match -/

mutual

/-- On a coherently built view of `n` (cached value = `n.Data`), the
self-testing search returns the first pre-order match of the subtree of
`n`, including `n` itself. -/
theorem findOnceAt_spec (args : List String) (strict : Bool) (p : Option Root)
    (pr nx : List HNode) (n : HNode) (h : wfNode n = true) :
    (findOnceAt args strict (Root.mk p pr n nx n.data) n).map Root.pointer
      = (preorder n).find? (nodeMatches strict args) := by
  have hwf : wfTrav n.children = true := ((wfNode_iff n).mp h).2
  rw [preorder_eq]
  by_cases hm : nodeMatches strict args n = true
  · have hm2 : matchArgs (Root.mk p pr n nx n.data) args strict = true := by
      rw [matchArgs_canonical]; exact hm
    rw [findOnceAt, if_pos hm2]
    simp [List.find?_cons, hm, Root.pointer]
  · have hm2 : matchArgs (Root.mk p pr n nx n.data) args strict = false := by
      rw [matchArgs_canonical]
      exact (Bool.not_eq_true _).mp hm
    rw [findOnceAt, if_neg (by simp [hm2])]
    rw [List.find?_cons]
    rw [show nodeMatches strict args n = false from (Bool.not_eq_true _).mp hm]
    exact findOnceKids_spec args strict (Root.mk p pr n nx n.data) [] n.children hwf
termination_by sizeOf n
decreasing_by cases n with
  | mk t d a cs => simp [HNode.children]; try omega

/-- The child loop of `findOnce` returns the first pre-order match of the
forest `rest`. -/
theorem findOnceKids_spec (args : List String) (strict : Bool) (v : Root)
    (pr rest : List HNode) (h : wfTrav rest = true) :
    (findOnceKids args strict v pr rest).map Root.pointer
      = (preorderTrav rest).find? (nodeMatches strict args) := by
  cases rest with
  | nil => simp [findOnceKids, preorderTrav]
  | cons c rest2 =>
    rw [wfTrav_cons] at h
    have h1 : wfNode c = true := by
      cases hh : wfNode c <;> simp [hh] at h ⊢
    have h2 : wfTrav rest2 = true := by
      cases hh : wfTrav rest2 <;> simp [hh] at h ⊢
    rw [preorderTrav_cons, List.find?_append]
    by_cases hc : c.type = NodeType.ElementNode
    · rw [findOnceKids, if_pos hc]
      have hAt := findOnceAt_spec args strict (some v) pr rest2 c h1
      cases hres : findOnceAt args strict (childView v pr c rest2) c with
      | some w =>
        have hh : (some w).map Root.pointer = (preorder c).find? (nodeMatches strict args) := by
          rw [← hres]; exact hAt
        simp only [Option.map_some'] at hh
        rw [← hh]
        simp
      | none =>
        have hh : (Option.map Root.pointer none) = (preorder c).find? (nodeMatches strict args) := by
          rw [← hres]; exact hAt
        simp only [Option.map_none'] at hh
        rw [← hh]
        simp
        exact findOnceKids_spec args strict v (c :: pr) rest2 h2
    · have hcempty : c.children = [] := by
        rcases (wfNode_iff c).mp h1 with ⟨hd, _⟩
        rcases hd with hd | hd
        · exact absurd hd hc
        · exact hd
      have hpre : preorder c = [c] := by
        rw [preorder_eq, hcempty]; rfl
      rw [hpre, List.find?_cons, nodeMatches_nonElement c strict args hc]
      rw [findOnceKids, if_neg hc]
      simp only [Option.or]
      exact findOnceKids_spec args strict v (c :: pr) rest2 h2
termination_by sizeOf rest
decreasing_by all_goals (subst_vars; simp [childView]; try omega)

end

/-! ## The collect-all search returns exactly the pre-order matches -/

mutual

/-- On a coherently built view of `n`, the self-testing collect-all search
returns exactly the pre-order matches of the subtree of `n`. -/
theorem findAllAt_spec (args : List String) (strict : Bool) (p : Option Root)
    (pr nx : List HNode) (n : HNode) (h : wfNode n = true) :
    (findAllAt args strict (Root.mk p pr n nx n.data) n).map Root.pointer
      = (preorder n).filter (nodeMatches strict args) := by
  have hwf : wfTrav n.children = true := ((wfNode_iff n).mp h).2
  rw [preorder_eq, List.filter_cons]
  rw [findAllAt, List.map_append, matchArgs_canonical]
  rw [findAllKids_spec args strict (Root.mk p pr n nx n.data) [] n.children hwf]
  by_cases hm : nodeMatches strict args n = true
  · rw [if_pos hm, if_pos hm]
    simp [Root.pointer]
  · rw [if_neg hm, if_neg hm]
    simp
termination_by sizeOf n
decreasing_by cases n with
  | mk t d a cs => simp [HNode.children]; try omega

/-- The child loop of `findAll` returns exactly the pre-order matches of
the forest `rest`, in order. -/
theorem findAllKids_spec (args : List String) (strict : Bool) (v : Root)
    (pr rest : List HNode) (h : wfTrav rest = true) :
    (findAllKids args strict v pr rest).map Root.pointer
      = (preorderTrav rest).filter (nodeMatches strict args) := by
  cases rest with
  | nil => simp [findAllKids, preorderTrav]
  | cons c rest2 =>
    rw [wfTrav_cons] at h
    have h1 : wfNode c = true := by
      cases hh : wfNode c <;> simp [hh] at h ⊢
    have h2 : wfTrav rest2 = true := by
      cases hh : wfTrav rest2 <;> simp [hh] at h ⊢
    rw [preorderTrav_cons, List.filter_append]
    rw [findAllKids, List.map_append]
    rw [findAllKids_spec args strict v (c :: pr) rest2 h2]
    by_cases hc : c.type = NodeType.ElementNode
    · rw [if_pos hc]
      have hAt := findAllAt_spec args strict (some v) pr rest2 c h1
      rw [show childView v pr c rest2 = Root.mk (some v) pr c rest2 c.data from rfl]
      rw [hAt]
    · rw [if_neg hc]
      have hcempty : c.children = [] := by
        rcases (wfNode_iff c).mp h1 with ⟨hd, _⟩
        rcases hd with hd | hd
        · exact absurd hd hc
        · exact hd
      have hpre : preorder c = [c] := by
        rw [preorder_eq, hcempty]; rfl
      rw [hpre, List.filter_cons, if_neg (by simp [nodeMatches_nonElement c strict args hc])]
      simp
termination_by sizeOf rest
decreasing_by all_goals (subst_vars; simp [childView]; try omega)

end

/-- Public entry points never test the start view: with `checkSelf = false`
the search goes straight to the child loop. -/
theorem findOnce_false (r : Root) (args : List String) (strict : Bool) :
    findOnce r args false strict = findOnceKids args strict r [] r.pointer.children := by
  simp [findOnce]

theorem findAll_false (r : Root) (args : List String) (strict : Bool) :
    findAll r args false strict = findAllKids args strict r [] r.pointer.children := by
  simp [findAll]

/-- The not-found result of `Find`/`FindStrict` is never a success. -/
theorem findFailure_toOption (debug : Bool) (args : List String) :
    (findFailure debug args).toOption = none := by
  cases args with
  | nil => rfl
  | cons a rest => cases debug <;> rfl

/-! ## Claim theorems -/

/-- **C1.** For every node view `r` over a well-formed parse tree and every
match criteria, `Find` and `FindStrict` (through `findOnce` with
`checkSelf = false`) never test `r` itself: they return precisely the first
node among `r`'s proper descendants, in document pre-order, that satisfies
the matcher — the children are scanned left-to-right, each child tested
before its subtree — and a not-found failure (no success value) when no
proper descendant matches. -/
theorem find_first_preorder_descendant (r : Root) (args : List String)
    (h : wfNode r.pointer = true) :
    (∀ strict, (findOnce r args false strict).map Root.pointer
        = (properDescendants r.pointer).find? (nodeMatches strict args))
  ∧ ((Find false r args).toOption.map Root.pointer
        = (properDescendants r.pointer).find? (nodeMatches false args))
  ∧ ((FindStrict false r args).toOption.map Root.pointer
        = (properDescendants r.pointer).find? (nodeMatches true args)) := by
  have hwf : wfTrav r.pointer.children = true := ((wfNode_iff _).mp h).2
  have key : ∀ strict, (findOnce r args false strict).map Root.pointer
      = (properDescendants r.pointer).find? (nodeMatches strict args) := by
    intro strict
    rw [findOnce_false]
    exact findOnceKids_spec args strict r [] r.pointer.children hwf
  refine ⟨key, ?_, ?_⟩
  · cases hfo : findOnce r args false false with
    | some w =>
      have hk := key false
      rw [hfo] at hk
      simp only [Find, hfo, GoResult.toOption]
      exact hk
    | none =>
      have hk := key false
      rw [hfo] at hk
      simp only [Find, hfo, findFailure_toOption]
      exact hk
  · cases hfo : findOnce r args false true with
    | some w =>
      have hk := key true
      rw [hfo] at hk
      simp only [FindStrict, hfo, GoResult.toOption]
      exact hk
    | none =>
      have hk := key true
      rw [hfo] at hk
      simp only [FindStrict, hfo, findFailure_toOption]
      exact hk

/-- Witness for C1 on `<div><span>hi</span></div>`. -/
theorem find_first_preorder_descendant_witness :
    wfNode (rootView divExample).pointer = true ∧
    (Find false (rootView divExample) ["span"]).toOption.map Root.pointer
      = (properDescendants (rootView divExample).pointer).find? (nodeMatches false ["span"]) :=
  ⟨by decide, (find_first_preorder_descendant (rootView divExample) ["span"] (by decide)).2.1⟩

/-- **C2.** For every node view `r` over a well-formed parse tree and every
match criteria, `FindAll` and `FindAllStrict` return exactly the proper
descendants of `r` satisfying the matcher — `r` itself excluded — in
document pre-order; the result is a plain list, an empty one when nothing
matches, never an error. -/
theorem findAll_exactly_preorder_descendants (r : Root) (args : List String)
    (h : wfNode r.pointer = true) :
    ((FindAll r args).map Root.pointer
        = (properDescendants r.pointer).filter (nodeMatches false args))
  ∧ ((FindAllStrict r args).map Root.pointer
        = (properDescendants r.pointer).filter (nodeMatches true args))
  ∧ ∀ strict, (findAll r args false strict).map Root.pointer
        = (properDescendants r.pointer).filter (nodeMatches strict args) := by
  have hwf : wfTrav r.pointer.children = true := ((wfNode_iff _).mp h).2
  have key : ∀ strict, (findAll r args false strict).map Root.pointer
      = (properDescendants r.pointer).filter (nodeMatches strict args) := by
    intro strict
    rw [findAll_false]
    exact findAllKids_spec args strict r [] r.pointer.children hwf
  exact ⟨key false, key true, key⟩

/-- Witness for C2 on `<div><span>hi</span></div>`. -/
theorem findAll_exactly_preorder_descendants_witness :
    wfNode (rootView divExample).pointer = true ∧
    (FindAll (rootView divExample) ["span"]).map Root.pointer
      = (properDescendants (rootView divExample).pointer).filter (nodeMatches false ["span"]) :=
  ⟨by decide, (findAll_exactly_preorder_descendants (rootView divExample) ["span"] (by decide)).1⟩

theorem foldl_and_eq_all (l : List String) (f : String → Bool) (b : Bool) :
    l.foldl (fun matching part => matching && f part) b = (b && l.all f) := by
  induction l generalizing b with
  | nil => simp
  | cons c cs ih =>
    rw [List.foldl_cons, ih (b && f c), List.all_cons]
    simp [Bool.and_assoc]

/-- **C3.** Strict attribute comparison succeeds iff the values are exactly
equal (byte for byte); loose comparison succeeds iff every
whitespace-separated token of the expected value occurs among the
whitespace-separated tokens of the attribute value, order-independently; an
expected value with no tokens (empty or all whitespace) matches vacuously. -/
theorem compareAttributeValues_spec (V E : String) :
    (compareAttributeValues true V E = true ↔ V = E)
  ∧ (compareAttributeValues false V E = true ↔ ∀ t ∈ goFields E, t ∈ goFields V)
  ∧ (goFields E = [] → compareAttributeValues false V E = true) := by
  have hloose : compareAttributeValues false V E
      = (goFields E).all (fun t => (goFields V).any (fun ap => ap = t)) := by
    rw [compareAttributeValues]
    simp only [Bool.false_eq_true, false_and, if_false, if_pos rfl]
    rw [foldl_and_eq_all]
    simp
  refine ⟨?_, ?_, ?_⟩
  · constructor
    · intro h
      by_contra hne
      rw [compareAttributeValues] at h
      simp [hne] at h
    · intro h
      rw [compareAttributeValues, if_pos ⟨rfl, h⟩]
  · rw [hloose]
    rw [List.all_eq_true]
    constructor
    · intro h t ht
      have := h t ht
      rw [List.any_eq_true] at this
      rcases this with ⟨x, hx, hxe⟩
      simp at hxe
      exact hxe ▸ hx
    · intro h t ht
      rw [List.any_eq_true]
      exact ⟨t, h t ht, by simp⟩
  · intro hE
    rw [hloose, hE]
    rfl

/-- Witness for C3: a token-less expected value matches vacuously. -/
theorem compareAttributeValues_spec_witness :
    goFields " " = [] ∧ compareAttributeValues false "a b" " " = true :=
  ⟨by decide, (compareAttributeValues_spec "a b" " ").2.2 (by decide)⟩

theorem nextElementSibling_spec (debug : Bool) (par : Option Root) (rest : List HNode) :
    ∀ (prevRev : List HNode) (cur : HNode),
      (nextElementSibling debug par prevRev cur rest).toOption.map Root.pointer
        = rest.find? (fun s => s.type = NodeType.ElementNode) := by
  induction rest with
  | nil =>
    intro prevRev cur
    cases debug <;> rfl
  | cons s rest2 ih =>
    intro prevRev cur
    rw [nextElementSibling]
    by_cases hs : s.type = NodeType.ElementNode
    · simp [hs, GoResult.toOption, Root.pointer, List.find?_cons]
    · rw [if_neg hs, ih]
      simp [List.find?_cons, hs]

theorem prevElementSibling_spec (debug : Bool) (par : Option Root) (prevList : List HNode) :
    ∀ (cur : HNode) (next : List HNode),
      (prevElementSibling debug par cur next prevList).toOption.map Root.pointer
        = prevList.find? (fun s => s.type = NodeType.ElementNode) := by
  induction prevList with
  | nil =>
    intro cur next
    cases debug <;> simp [prevElementSibling, GoResult.toOption]
  | cons p prevRest ih =>
    intro cur next
    rw [prevElementSibling]
    by_cases hp : p.type = NodeType.ElementNode
    · simp [hp, GoResult.toOption, Root.pointer, List.find?_cons]
    · rw [if_neg hp, ih]
      simp [List.find?_cons, hp]

/-- **C7.** `FindNextElementSibling` (resp. `FindPrevElementSibling`)
returns the nearest following (resp. preceding) sibling that is an element
node — skipping intervening text/comment siblings — and fails exactly when
the sibling chain is exhausted without an element node. -/
theorem elementSibling_nearest (debug : Bool) (r : Root) :
    ((FindNextElementSibling debug r).toOption.map Root.pointer
        = r.next.find? (fun s => s.type = NodeType.ElementNode))
  ∧ ((FindPrevElementSibling debug r).toOption.map Root.pointer
        = r.prevRev.find? (fun s => s.type = NodeType.ElementNode))
  ∧ ((FindNextElementSibling debug r).toOption = none
        ↔ ∀ s ∈ r.next, ¬ s.type = NodeType.ElementNode)
  ∧ ((FindPrevElementSibling debug r).toOption = none
        ↔ ∀ s ∈ r.prevRev, ¬ s.type = NodeType.ElementNode) := by
  have hnse := nextElementSibling_spec debug r.parent r.next r.prevRev r.pointer
  have hpse := prevElementSibling_spec debug r.parent r.prevRev r.pointer r.next
  simp only [FindNextElementSibling, FindPrevElementSibling]
  refine ⟨hnse, hpse, ?_, ?_⟩
  · rw [← Option.map_eq_none' (f := Root.pointer), hnse, List.find?_eq_none]
    simp
  · rw [← Option.map_eq_none' (f := Root.pointer), hpse, List.find?_eq_none]
    simp


theorem matchArgs_badLen (r : Root) (args : List String) (strict : Bool)
    (h1 : args.length ≠ 1) (h3 : args.length ≠ 3) : matchArgs r args strict = false := by
  cases args with
  | nil => rfl
  | cons a rest =>
    cases rest with
    | nil => exact absurd rfl h1
    | cons b rest2 =>
      cases rest2 with
      | nil => rfl
      | cons c rest3 =>
        cases rest3 with
        | nil => exact absurd rfl h3
        | cons d rest4 => rfl

mutual

theorem findOnceAt_matchless (args : List String) (strict : Bool)
    (hm : ∀ v : Root, matchArgs v args strict = false) (v : Root) (ptr : HNode) :
    findOnceAt args strict v ptr = none := by
  rw [findOnceAt, if_neg (by simp [hm v])]
  exact findOnceKids_matchless args strict hm v [] ptr.children
termination_by sizeOf ptr
decreasing_by cases ptr with
  | mk t d a cs => simp [HNode.children]; try omega

theorem findOnceKids_matchless (args : List String) (strict : Bool)
    (hm : ∀ v : Root, matchArgs v args strict = false) (v : Root)
    (pr rest : List HNode) : findOnceKids args strict v pr rest = none := by
  cases rest with
  | nil => rw [findOnceKids]
  | cons c rest2 =>
    rw [findOnceKids]
    by_cases hc : c.type = NodeType.ElementNode
    · rw [if_pos hc, findOnceAt_matchless args strict hm (childView v pr c rest2) c]
      exact findOnceKids_matchless args strict hm v (c :: pr) rest2
    · rw [if_neg hc]
      exact findOnceKids_matchless args strict hm v (c :: pr) rest2
termination_by sizeOf rest
decreasing_by all_goals (subst_vars; simp [childView]; try omega)

end

mutual

theorem findAllAt_matchless (args : List String) (strict : Bool)
    (hm : ∀ v : Root, matchArgs v args strict = false) (v : Root) (ptr : HNode) :
    findAllAt args strict v ptr = [] := by
  rw [findAllAt, if_neg (by simp [hm v])]
  rw [findAllKids_matchless args strict hm v [] ptr.children]
  rfl
termination_by sizeOf ptr
decreasing_by cases ptr with
  | mk t d a cs => simp [HNode.children]; try omega

theorem findAllKids_matchless (args : List String) (strict : Bool)
    (hm : ∀ v : Root, matchArgs v args strict = false) (v : Root)
    (pr rest : List HNode) : findAllKids args strict v pr rest = [] := by
  cases rest with
  | nil => rw [findAllKids]
  | cons c rest2 =>
    rw [findAllKids]
    by_cases hc : c.type = NodeType.ElementNode
    · rw [if_pos hc, findAllAt_matchless args strict hm (childView v pr c rest2) c]
      rw [findAllKids_matchless args strict hm v (c :: pr) rest2]
      rfl
    · rw [if_neg hc]
      rw [findAllKids_matchless args strict hm v (c :: pr) rest2]
      rfl
termination_by sizeOf rest
decreasing_by all_goals (subst_vars; simp [childView]; try omega)

end

/-- **C10.** With an empty argument list no argument-count case can set a
match, so `findOnce` reaches the not-found branch on every tree; the error
message construction then indexes `args[0]` out of range and the program
aborts, with debug mode on or off. -/
theorem find_empty_args_aborts (r : Root) (debug : Bool) :
    (∀ checkSelf strict, findOnce r [] checkSelf strict = none)
  ∧ Find debug r [] = .abort
  ∧ FindStrict debug r [] = .abort := by
  have hm : ∀ strict, ∀ v : Root, matchArgs v [] strict = false := fun _ _ => rfl
  have hfo : ∀ checkSelf strict, findOnce r [] checkSelf strict = none := by
    intro cs strict
    rw [findOnce, if_neg (by simp [hm strict r])]
    exact findOnceKids_matchless [] strict (hm strict) r [] r.pointer.children
  refine ⟨hfo, ?_, ?_⟩
  · rw [Find, hfo false false]
    rfl
  · rw [FindStrict, hfo false true]
    rfl



/-- **C4 amended.** With an argument count other than 1 and 3, no
argument-count case sets a match, so the searches silently treat the
criteria as matching nothing: `findOnce` fails on every tree, `findAll`
returns the empty list, and for a nonempty argument list `Find`/`FindStrict`
report a *not-found* error (no invalid-argument-shape error exists). -/
theorem invalid_arg_count_silent_nomatch (r : Root) (args : List String)
    (h1 : args.length ≠ 1) (h3 : args.length ≠ 3) :
    (∀ checkSelf strict, findOnce r args checkSelf strict = none)
  ∧ (∀ checkSelf strict, findAll r args checkSelf strict = [])
  ∧ FindAll r args = [] ∧ FindAllStrict r args = []
  ∧ (∀ a rest, args = a :: rest →
      Find false r args
          = .err ("element `" ++ a ++ "` with attributes `" ++ goJoin rest ++ "` not found")
    ∧ FindStrict false r args
          = .err ("element `" ++ a ++ "` with attributes `" ++ goJoin rest ++ "` not found")) := by
  have hm : ∀ strict, ∀ v : Root, matchArgs v args strict = false :=
    fun strict v => matchArgs_badLen v args strict h1 h3
  have hfo : ∀ checkSelf strict, findOnce r args checkSelf strict = none := by
    intro cs strict
    rw [findOnce, if_neg (by simp [hm strict r])]
    exact findOnceKids_matchless args strict (hm strict) r [] r.pointer.children
  have hfa : ∀ checkSelf strict, findAll r args checkSelf strict = [] := by
    intro cs strict
    rw [findAll, if_neg (by simp [hm strict r])]
    rw [findAllKids_matchless args strict (hm strict) r [] r.pointer.children]
    rfl
  refine ⟨hfo, hfa, hfa false false, hfa false true, ?_⟩
  intro a rest hargs
  subst hargs
  constructor
  · rw [Find, hfo false false]
    rfl
  · rw [FindStrict, hfo false true]
    rfl

/-- Counterexample to C4 as stated: on `<div><span>hi</span></div>` a
two-argument search returns a *not-found* error / an empty list — not an
invalid-argument-shape error — even though a matching descendant exists for
the well-shaped one-argument query. -/
theorem invalid_arg_count_cex :
    Find false (rootView divExample) ["span", "id"]
        = .err "element `span` with attributes `id` not found"
  ∧ FindAll (rootView divExample) ["span", "id"] = []
  ∧ (Find false (rootView divExample) ["span"]).toOption.isSome = true := by
  have hm : ∀ v : Root, ∀ strict, matchArgs v ["span", "id"] strict = false :=
    fun v strict => matchArgs_badLen v ["span", "id"] strict (by decide) (by decide)
  have hfo : findOnce (rootView divExample) ["span", "id"] false false = none := by
    rw [findOnce, if_neg (by simp [hm (rootView divExample) false])]
    exact findOnceKids_matchless ["span", "id"] false (fun v => hm v false)
      (rootView divExample) [] _
  refine ⟨?_, ?_, ?_⟩
  · rw [Find, hfo]
    rfl
  · rw [FindAll, findAll, if_neg (by simp [hm (rootView divExample) false])]
    rw [findAllKids_matchless ["span", "id"] false (fun v => hm v false)
      (rootView divExample) [] _]
    rfl
  · have hwf : wfTrav (rootView divExample).pointer.children = true := by decide
    have h1 : (findOnce (rootView divExample) ["span"] false false).map Root.pointer
        = (preorderTrav (rootView divExample).pointer.children).find?
            (nodeMatches false ["span"]) := by
      rw [findOnce_false]
      exact findOnceKids_spec ["span"] false (rootView divExample) [] _ hwf
    have h2 : (preorderTrav (rootView divExample).pointer.children).find?
        (nodeMatches false ["span"]) = some (nElem "span" [] [nText "hi"]) := by decide
    rw [h2] at h1
    cases hfo2 : findOnce (rootView divExample) ["span"] false false with
    | none =>
      rw [hfo2] at h1
      simp at h1
    | some w =>
      rw [Find, hfo2]
      rfl

/-- Witness for the amended C4 at a concrete ill-shaped argument list. -/
theorem invalid_arg_count_silent_nomatch_witness :
    ([ "span", "id" ] : List String).length ≠ 1 ∧ ([ "span", "id" ] : List String).length ≠ 3 ∧
    FindAll (rootView divExample) ["span", "id"] = [] :=
  ⟨by decide, by decide,
    (invalid_arg_count_silent_nomatch (rootView divExample) ["span", "id"]
      (by decide) (by decide)).2.2.1⟩



/-- Counterexample to C5 as stated: on the element parsed from
`<p>  <b>x</b></p>` deep text extraction returns `"  x"` — the
whitespace-only text child is concatenated too — not `"x"`. -/
theorem fullText_includes_whitespace_cex :
    FullText (rootView pExample) = "  x" ∧ ¬ FullText (rootView pExample) = "x" := by
  refine ⟨rfl, by decide⟩

/-- **C5 amended.** On the element parsed from `<p>  <b>x</b></p>` (a
whitespace-only text child followed by `<b>x</b>`), shallow text extraction
fails — the child scan exhausts the chain without a usable text node, so
`Text` panics under debug mode and returns the bare `""` otherwise — and
deep text extraction returns `"  x"`: every text node is concatenated,
including the whitespace-only one. -/
theorem shallow_text_fails_deep_text_concatenates :
    textAux pExample.children = none
  ∧ Text true (rootView pExample) = .abort
  ∧ Text false (rootView pExample) = .ok ""
  ∧ FullText (rootView pExample) = "  x" :=
  ⟨rfl, rfl, rfl, rfl⟩

/-- Counterexample to C6 as stated: on a parentless view `FindParent`
aborts (nil-pointer dereference) — it does not yield an error-carrying
result. -/
theorem findParent_no_guard_cex :
    FindParent (rootView (nElem "html" [] [])) = .abort
  ∧ ∀ msg, ¬ FindParent (rootView (nElem "html" [] [])) = .err msg :=
  ⟨rfl, fun _ h => GoResult.noConfusion h⟩

/-- **C6 amended.** `FindParent` performs no guard: on a view with no
parent link it dereferences the nil parent pointer and the program aborts;
when a parent link exists it returns the stored parent view. -/
theorem findParent_unguarded (r : Root) :
    (r.parent = none → FindParent r = .abort)
  ∧ (∀ p, r.parent = some p → FindParent r = .ok p) := by
  cases r with
  | mk par pr ptr nx val =>
    cases par with
    | none =>
      refine ⟨fun _ => rfl, fun p hp => ?_⟩
      simp [Root.parent] at hp
    | some q =>
      refine ⟨fun h => ?_, fun p hp => ?_⟩
      · simp [Root.parent] at h
      · simp only [Root.parent] at hp
        injection hp with hq
        subst hq
        cases q with
        | mk qp qpr qptr qnx qval => rfl

/-- Witness for the amended C6 on a parentless root view. -/
theorem findParent_unguarded_witness :
    FindParent (rootView (nElem "body" [] [])) = .abort :=
  (findParent_unguarded (rootView (nElem "body" [] []))).1 rfl

/-- Counterexample to C8 as stated: shallow text extraction on a node with
no usable text child and attribute access on a text node are failures —
under debug mode they abort — yet with debug off they return bare
success-typed values (`""` and the empty map) carrying no error. -/
theorem failures_not_surfaced_cex :
    Text true (rootView divNoTextExample) = .abort
  ∧ Text false (rootView divNoTextExample) = .ok ""
  ∧ Attributes true (rootView (nText "hello")) = .abort
  ∧ Attributes false (rootView (nText "hello")) = .ok [] :=
  ⟨rfl, rfl, rfl, rfl⟩

/-- **C8 amended.** With debug off, single-match search and sibling
navigation do surface their failures as error values, but shallow text
extraction and attribute access on a non-element node do not: they return a
bare zero value (`""`, empty map) with no error signal. -/
theorem failure_surfacing_mixed (r : Root) :
    (∀ a rest, findOnce r (a :: rest) false false = none →
      Find false r (a :: rest)
        = .err ("element `" ++ a ++ "` with attributes `" ++ goJoin rest ++ "` not found"))
  ∧ (∀ a rest, findOnce r (a :: rest) false true = none →
      FindStrict false r (a :: rest)
        = .err ("element `" ++ a ++ "` with attributes `" ++ goJoin rest ++ "` not found"))
  ∧ (r.next = [] → FindNextSibling false r = .err "no next sibling found")
  ∧ (r.prevRev = [] → FindPrevSibling false r = .err "no previous sibling found")
  ∧ (textAux r.pointer.children = none → Text false r = .ok "")
  ∧ (¬ r.pointer.type = NodeType.ElementNode → Attributes false r = .ok []) := by
  refine ⟨?_, ?_, ?_, ?_, ?_, ?_⟩
  · intro a rest h
    rw [Find, h]
    rfl
  · intro a rest h
    rw [FindStrict, h]
    rfl
  · intro h
    simp [FindNextSibling, h]
  · intro h
    simp [FindPrevSibling, h]
  · intro h
    simp [Text, h]
  · intro h
    simp [Attributes, h]

/-- Witness for the amended C8: a failing shallow text extraction returns a
bare `""` with debug off. -/
theorem failure_surfacing_mixed_witness :
    Text false (rootView divNoTextExample) = .ok "" :=
  (failure_surfacing_mixed (rootView divNoTextExample)).2.2.2.2.1 rfl



theorem viewOK_mk (par : Option Root) (pr : List HNode) (ptr : HNode) (nx : List HNode)
    (val : String) :
    viewOK (Root.mk par pr ptr nx val) = true
      ↔ ∀ p, par = some p → (p.pointer.children = pr.reverse ++ ptr :: nx ∧ viewOK p = true) := by
  cases par with
  | none => simp [viewOK]
  | some q => simp [viewOK]

theorem viewOK_parent (r : Root) (p : Root) (hok : viewOK r = true)
    (hp : r.parent = some p) :
    p.pointer.children = r.prevRev.reverse ++ r.pointer :: r.next ∧ viewOK p = true := by
  cases r with
  | mk par pr ptr nx val =>
    simp only [Root.parent] at hp
    subst hp
    exact (viewOK_mk _ pr ptr nx val).mp hok p rfl

theorem childView_viewOK (v : Root) (pr : List HNode) (c : HNode) (rest : List HNode)
    (hok : viewOK v = true) (hsplit : v.pointer.children = pr.reverse ++ c :: rest) :
    viewOK (childView v pr c rest) = true := by
  rw [show childView v pr c rest = Root.mk (some v) pr c rest c.data from rfl]
  rw [viewOK_mk]
  intro p hp
  injection hp with hp
  subst hp
  exact ⟨hsplit, hok⟩

theorem childrenAux_viewOK (r : Root) (flag : Bool) (hok : viewOK r = true) :
    ∀ (rest prevRev : List HNode), r.pointer.children = prevRev.reverse ++ rest →
      ∀ w ∈ childrenAux r flag prevRev rest, viewOK w = true := by
  intro rest
  induction rest with
  | nil =>
    intro prevRev hsplit w hw
    simp [childrenAux] at hw
  | cons c rest2 ih =>
    intro prevRev hsplit w hw
    rw [childrenAux] at hw
    by_cases hc : flag = true ∨ c.type = NodeType.ElementNode
    · rw [if_pos hc] at hw
      rcases List.mem_cons.mp hw with hw | hw
      · subst hw
        exact childView_viewOK r prevRev c rest2 hok hsplit
      · exact ih (c :: prevRev) (by rw [hsplit]; simp) w hw
    · rw [if_neg hc] at hw
      exact ih (c :: prevRev) (by rw [hsplit]; simp) w hw

theorem siblingsAux_viewOK (par : Option Root) (flag : Bool)
    (hpar : ∀ p, par = some p → viewOK p = true) :
    ∀ (rest prevRev : List HNode),
      (∀ p, par = some p → p.pointer.children = prevRev.reverse ++ rest) →
      ∀ w ∈ siblingsAux par flag prevRev rest, viewOK w = true := by
  intro rest
  induction rest with
  | nil =>
    intro prevRev hsplit w hw
    simp [siblingsAux] at hw
  | cons s rest2 ih =>
    intro prevRev hsplit w hw
    rw [siblingsAux] at hw
    by_cases hs : flag = true ∨ s.type = NodeType.ElementNode
    · rw [if_pos hs] at hw
      rcases List.mem_cons.mp hw with hw | hw
      · subst hw
        rw [viewOK_mk]
        intro p hp
        exact ⟨hsplit p hp, hpar p hp⟩
      · refine ih (s :: prevRev) (fun p hp => ?_) w hw
        rw [hsplit p hp]
        simp
    · rw [if_neg hs] at hw
      refine ih (s :: prevRev) (fun p hp => ?_) w hw
      rw [hsplit p hp]
      simp

theorem nextElementSibling_viewOK (debug : Bool) (par : Option Root)
    (hpar : ∀ p, par = some p → viewOK p = true) :
    ∀ (rest prevRev : List HNode) (cur : HNode),
      (∀ p, par = some p → p.pointer.children = prevRev.reverse ++ cur :: rest) →
      ∀ w, nextElementSibling debug par prevRev cur rest = .ok w → viewOK w = true := by
  intro rest
  induction rest with
  | nil =>
    intro prevRev cur hsplit w hw
    cases debug <;> simp [nextElementSibling] at hw
  | cons s rest2 ih =>
    intro prevRev cur hsplit w hw
    rw [nextElementSibling] at hw
    by_cases hs : s.type = NodeType.ElementNode
    · rw [if_pos hs] at hw
      injection hw with hw
      subst hw
      rw [viewOK_mk]
      intro p hp
      refine ⟨?_, hpar p hp⟩
      rw [hsplit p hp]
      simp
    · rw [if_neg hs] at hw
      refine ih (cur :: prevRev) s (fun p hp => ?_) w hw
      rw [hsplit p hp]
      simp

theorem prevElementSibling_viewOK (debug : Bool) (par : Option Root)
    (hpar : ∀ p, par = some p → viewOK p = true) :
    ∀ (prevList : List HNode) (cur : HNode) (next : List HNode),
      (∀ p, par = some p → p.pointer.children = prevList.reverse ++ cur :: next) →
      ∀ w, prevElementSibling debug par cur next prevList = .ok w → viewOK w = true := by
  intro prevList
  induction prevList with
  | nil =>
    intro cur next hsplit w hw
    cases debug <;> simp [prevElementSibling] at hw
  | cons q prevRest ih =>
    intro cur next hsplit w hw
    rw [prevElementSibling] at hw
    by_cases hq : q.type = NodeType.ElementNode
    · rw [if_pos hq] at hw
      injection hw with hw
      subst hw
      rw [viewOK_mk]
      intro p hp
      refine ⟨?_, hpar p hp⟩
      have := hsplit p hp
      rw [this]
      simp
    · rw [if_neg hq] at hw
      refine ih q (cur :: next) (fun p hp => ?_) w hw
      have := hsplit p hp
      rw [this]
      simp

mutual

theorem findOnceAt_viewOK (args : List String) (strict : Bool) (v : Root) (ptr : HNode)
    (hp : v.pointer = ptr) (hok : viewOK v = true) :
    ∀ w, findOnceAt args strict v ptr = some w → viewOK w = true := by
  intro w hw
  rw [findOnceAt] at hw
  by_cases hm : matchArgs v args strict = true
  · rw [if_pos hm] at hw
    injection hw with hw
    subst hw
    exact hok
  · rw [if_neg (by simp [hm])] at hw
    exact findOnceKids_viewOK args strict v [] ptr.children hok (by rw [hp]; simp) w hw
termination_by sizeOf ptr
decreasing_by cases ptr with
  | mk t d a cs => simp [HNode.children]; try omega

theorem findOnceKids_viewOK (args : List String) (strict : Bool) (v : Root)
    (pr rest : List HNode) (hok : viewOK v = true)
    (hsplit : v.pointer.children = pr.reverse ++ rest) :
    ∀ w, findOnceKids args strict v pr rest = some w → viewOK w = true := by
  intro w hw
  cases rest with
  | nil =>
    rw [findOnceKids] at hw
    exact Option.noConfusion hw
  | cons c rest2 =>
    rw [findOnceKids] at hw
    by_cases hc : c.type = NodeType.ElementNode
    · rw [if_pos hc] at hw
      cases hres : findOnceAt args strict (childView v pr c rest2) c with
      | some u =>
        rw [hres] at hw
        injection hw with hw
        exact hw ▸ findOnceAt_viewOK args strict (childView v pr c rest2) c rfl
          (childView_viewOK v pr c rest2 hok hsplit) u hres
      | none =>
        rw [hres] at hw
        exact findOnceKids_viewOK args strict v (c :: pr) rest2 hok
          (by rw [hsplit]; simp) w hw
    · rw [if_neg hc] at hw
      exact findOnceKids_viewOK args strict v (c :: pr) rest2 hok
        (by rw [hsplit]; simp) w hw
termination_by sizeOf rest
decreasing_by all_goals (subst_vars; simp [childView]; try omega)

end

mutual

theorem findAllAt_viewOK (args : List String) (strict : Bool) (v : Root) (ptr : HNode)
    (hp : v.pointer = ptr) (hok : viewOK v = true) :
    ∀ w ∈ findAllAt args strict v ptr, viewOK w = true := by
  intro w hw
  rw [findAllAt] at hw
  rcases List.mem_append.mp hw with hw | hw
  · by_cases hm : matchArgs v args strict = true
    · rw [if_pos hm] at hw
      rw [List.mem_singleton.mp hw]
      exact hok
    · rw [if_neg (by simp [hm])] at hw
      simp at hw
  · exact findAllKids_viewOK args strict v [] ptr.children hok (by rw [hp]; simp) w hw
termination_by sizeOf ptr
decreasing_by cases ptr with
  | mk t d a cs => simp [HNode.children]; try omega

theorem findAllKids_viewOK (args : List String) (strict : Bool) (v : Root)
    (pr rest : List HNode) (hok : viewOK v = true)
    (hsplit : v.pointer.children = pr.reverse ++ rest) :
    ∀ w ∈ findAllKids args strict v pr rest, viewOK w = true := by
  intro w hw
  cases rest with
  | nil =>
    rw [findAllKids] at hw
    simp at hw
  | cons c rest2 =>
    rw [findAllKids] at hw
    rcases List.mem_append.mp hw with hw | hw
    · by_cases hc : c.type = NodeType.ElementNode
      · rw [if_pos hc] at hw
        exact findAllAt_viewOK args strict (childView v pr c rest2) c rfl
          (childView_viewOK v pr c rest2 hok hsplit) w hw
      · rw [if_neg hc] at hw
        simp at hw
    · exact findAllKids_viewOK args strict v (c :: pr) rest2 hok
        (by rw [hsplit]; simp) w hw
termination_by sizeOf rest
decreasing_by all_goals (subst_vars; simp [childView]; try omega)

end

/-- **C9.** Every operation that constructs a new node view during
traversal — `Children`, `Siblings`, `FindNextSibling`/`FindPrevSibling`,
the element-sibling navigations, `FindParent`, and the search operations —
preserves parent-link coherence (`viewOK`): the new view's parent
reference, when present, is a view whose underlying node is the actual
tree parent of the new view's underlying node (first conjunct: coherence
indeed places the view's node among its parent's children). -/
theorem traversal_preserves_parent_invariant (r : Root) (h : viewOK r = true) :
    (∀ v p, viewOK v = true → v.parent = some p → v.pointer ∈ p.pointer.children)
  ∧ (∀ parameters, ∀ c ∈ Children r parameters, viewOK c = true)
  ∧ (∀ parameters, ∀ s ∈ Siblings r parameters, viewOK s = true)
  ∧ (∀ debug v, FindNextSibling debug r = .ok v → viewOK v = true)
  ∧ (∀ debug v, FindPrevSibling debug r = .ok v → viewOK v = true)
  ∧ (∀ debug v, FindNextElementSibling debug r = .ok v → viewOK v = true)
  ∧ (∀ debug v, FindPrevElementSibling debug r = .ok v → viewOK v = true)
  ∧ (∀ v, FindParent r = .ok v → viewOK v = true)
  ∧ (∀ args checkSelf strict v, findOnce r args checkSelf strict = some v → viewOK v = true)
  ∧ (∀ args checkSelf strict, ∀ v ∈ findAll r args checkSelf strict, viewOK v = true) := by
  refine ⟨?_, ?_, ?_, ?_, ?_, ?_, ?_, ?_, ?_, ?_⟩
  · intro v p hv hp
    rcases viewOK_parent v p hv hp with ⟨hch, _⟩
    rw [hch]
    exact List.mem_append.mpr (Or.inr (List.mem_cons_self _ _))
  · intro parameters c hc
    exact childrenAux_viewOK r (childrenFlag parameters) h r.pointer.children [] (by simp) c hc
  · intro parameters s hs
    refine siblingsAux_viewOK r.parent (childrenFlag parameters)
      (fun p hp => (viewOK_parent r p h hp).2) r.next (r.pointer :: r.prevRev)
      (fun p hp => ?_) s hs
    rw [(viewOK_parent r p h hp).1]
    simp
  · intro debug v hv
    rw [FindNextSibling] at hv
    cases hnx : r.next with
    | nil =>
      rw [hnx] at hv
      cases debug <;> simp at hv
    | cons s rest =>
      rw [hnx] at hv
      injection hv with hv
      rw [← hv, viewOK_mk]
      intro p hp
      refine ⟨?_, (viewOK_parent r p h hp).2⟩
      rw [(viewOK_parent r p h hp).1, hnx]
      simp
  · intro debug v hv
    rw [FindPrevSibling] at hv
    cases hpv : r.prevRev with
    | nil =>
      rw [hpv] at hv
      cases debug <;> simp at hv
    | cons q prevRest =>
      rw [hpv] at hv
      injection hv with hv
      rw [← hv, viewOK_mk]
      intro p hp
      refine ⟨?_, (viewOK_parent r p h hp).2⟩
      rw [(viewOK_parent r p h hp).1, hpv]
      simp
  · intro debug v hv
    rw [FindNextElementSibling] at hv
    refine nextElementSibling_viewOK debug r.parent
      (fun p hp => (viewOK_parent r p h hp).2) r.next r.prevRev r.pointer
      (fun p hp => (viewOK_parent r p h hp).1) v hv
  · intro debug v hv
    rw [FindPrevElementSibling] at hv
    refine prevElementSibling_viewOK debug r.parent
      (fun p hp => (viewOK_parent r p h hp).2) r.prevRev r.pointer r.next
      (fun p hp => (viewOK_parent r p h hp).1) v hv
  · intro v hv
    rw [FindParent] at hv
    cases hp : r.parent with
    | none =>
      rw [hp] at hv
      exact GoResult.noConfusion hv
    | some p =>
      rw [hp] at hv
      injection hv with hv
      rw [← hv, Root.eta]
      exact (viewOK_parent r p h hp).2
  · intro args checkSelf strict v hv
    rw [findOnce] at hv
    by_cases hcs : checkSelf = true ∧ matchArgs r args strict = true
    · rw [if_pos hcs] at hv
      injection hv with hv
      rw [← hv]
      exact h
    · rw [if_neg hcs] at hv
      exact findOnceKids_viewOK args strict r [] r.pointer.children h (by simp) v hv
  · intro args checkSelf strict v hv
    rw [findAll] at hv
    rcases List.mem_append.mp hv with hv | hv
    · by_cases hcs : checkSelf = true ∧ matchArgs r args strict = true
      · rw [if_pos hcs] at hv
        rw [List.mem_singleton.mp hv]
        exact h
      · rw [if_neg hcs] at hv
        simp at hv
    · exact findAllKids_viewOK args strict r [] r.pointer.children h (by simp) v hv

/-- Witness for C9: a coherent root view and the coherent child view built
for its single element child. -/
theorem traversal_preserves_parent_invariant_witness :
    viewOK (rootView divExample) = true ∧
    viewOK (childView (rootView divExample) [] (nElem "span" [] [nText "hi"]) []) = true :=
  ⟨by decide,
    (traversal_preserves_parent_invariant (rootView divExample) (by decide)).2.1 []
      (childView (rootView divExample) [] (nElem "span" [] [nText "hi"]) [])
      (List.mem_singleton.mpr rfl)⟩


end Soup
